import Mathlib

/-
  Verification development for the go-crawler repository (main.go).

  The repository contains two variants of the same program (an earlier and a
  later revision of main.go); they are embedded here as namespaces V1 and V2:
    - V1 : the first  variant (crawler with the depth check before the append,
           a worker that sends no batch on fetch error, and an ExtractLinks
           that dereferences a nil start pointer on an orphaned anchor close).
    - V2 : the second variant (append before the depth check, a worker that
           sends an empty batch on fetch error, and an ExtractLinks that
           returns early on an orphaned anchor close).

  Modelling conventions (shallow embedding):
    - Go byte strings are Lean Strings; strings.TrimSpace, strings.ToLower
      and strings.Contains are embedded as character-list operations.
    - The html tokenizer's output is a finite token list; the tokenizer
      returning ErrorToken forever once the input is exhausted is modelled by
      the end of the list behaving exactly like an ErrorToken.
    - Go ints that are always non-negative in the program (depths, counters)
      are Nat.
    - A Go panic (nil pointer dereference) is modelled by Option.none.
    - The nondeterministic arrival order of worker batches on the frontier
      channel is modelled by a schedule function choosing, at each receive,
      which of the outstanding (sent but not yet received) batches arrives.
    - The blocking receive on an empty frontier with a positive pending
      counter (a crawl that hangs forever) is the Outcome.deadlocked case.
-/

/-- The Go struct Link from main.go: a discovered hyperlink with its href
target, anchor text and BFS discovery depth. -/
structure Link where
  url : String
  text : String
  depth : Nat
  deriving DecidableEq, Repr

/-- Embedding of strings.TrimSpace via character lists: drop whitespace
from both ends.  (Char-list form so that concrete instances reduce in the
kernel; Go trims the slightly larger Unicode White_Space set, which agrees
with Char.isWhitespace on every character this development touches.) -/
def goTrim (s : String) : String :=
  String.mk (((s.data.dropWhile Char.isWhitespace).reverse.dropWhile Char.isWhitespace).reverse)

/-- Embedding of strings.ToLower (character-wise lowering). -/
def strToLower (s : String) : String :=
  String.mk (s.data.map Char.toLower)

/-- Whether the first character list starts the second one. -/
def charsLeadWith : List Char → List Char → Bool
  | [], _ => true
  | _ :: _, [] => false
  | a :: as, b :: bs => a == b && charsLeadWith as bs

/-- Whether the first character list occurs contiguously inside the second. -/
def charsHaveSub (sub : List Char) : List Char → Bool
  | [] => charsLeadWith sub []
  | c :: cs => charsLeadWith sub (c :: cs) || charsHaveSub sub cs

/-- Embedding of strings.Contains: sub occurs as a contiguous substring. -/
def strContainsSub (s sub : String) : Bool :=
  charsHaveSub sub.data s.data

/-- The Go method Link.Valid (identical in both variants): non-empty text,
non-empty url, and the lowered url does not contain "javascript". -/
def Link.Valid (l : Link) : Bool :=
  if l.text.length = 0 then false
  else if l.url.length = 0 || strContainsSub (strToLower l.url) "javascript" then false
  else true

/-- The token types of golang.org/x/net/html that the program inspects. -/
inductive TokType where
  | startTag
  | endTag
  | text
  | selfClosing
  | comment
  | doctype
  | error
  deriving DecidableEq, Repr

/-- One html.Token: its type, its DataAtom rendered as a string ("a" for an
anchor), its Data (text content for text tokens) and its attribute list. -/
structure Token where
  ttype : TokType
  dataAtom : String
  data : String
  attr : List (String × String)
  deriving DecidableEq, Repr

/-- The DataAtom of an anchor tag (atom.A). -/
def anchorAtom : String := "a"

/-- The Go function NewLink (identical in both variants): trims the text,
and scans the tag attributes assigning url from every "href" key in order,
so the last href wins; with no href the url stays the empty string. -/
def NewLink (tag : Token) (text : String) (depth : Nat) : Link :=
  { url := tag.attr.foldl (fun u kv => if kv.1 = "href" then goTrim kv.2 else u) ""
    text := goTrim text
    depth := depth }

/-- The text-accumulation statement shared by both ExtractLinks variants:
append the token's data to the running text when a start tag is held and
the token is a text token, else leave the text unchanged. -/
def accText (start : Option Token) (tok : Token) (text : String) : String :=
  if start.isSome ∧ tok.ttype = TokType.text then text ++ tok.data else text

/-- The anchor-completion statement shared by both ExtractLinks variants:
build the link with NewLink and append it to the output only if it is
valid. -/
def anchorOut (st : Token) (text : String) (depth : Nat) (links : List Link) : List Link :=
  if (NewLink st text depth).Valid then links ++ [NewLink st text depth] else links

namespace V1

/-- The loop body of variant 1 ExtractLinks over the remaining tokens, with
the held start tag, the accumulated text and the links found so far.  The
orphaned-close case (anchor end tag with no held start) logs a warning and
then dereferences the nil start pointer: a runtime panic, modelled as none. -/
def extractLoop (depth : Nat) : List Token → Option Token → String → List Link → Option (List Link)
  | [], _, _, links => some links
  | tok :: rest, start, text, links =>
    if tok.ttype = TokType.error then some links
    else
      if tok.dataAtom = anchorAtom then
        match tok.ttype with
        | TokType.startTag =>
          extractLoop depth rest (if 0 < tok.attr.length then some tok else start)
            (accText start tok text) links
        | TokType.endTag =>
          match start with
          | none => none
          | some st =>
            extractLoop depth rest none "" (anchorOut st (accText start tok text) depth links)
        | _ => extractLoop depth rest start (accText start tok text) links
      else extractLoop depth rest start (accText start tok text) links

/-- Variant 1 ExtractLinks: tokenize the body and run the loop from the idle
state; none models the program crashing (nil start dereference). -/
def ExtractLinks (body : List Token) (depth : Nat) : Option (List Link) :=
  extractLoop depth body none "" []

end V1

namespace V2

/-- The loop body of variant 2 ExtractLinks.  The orphaned-close case logs a
warning and returns the links accumulated so far, aborting extraction of the
remaining tokens. -/
def extractLoop (depth : Nat) : List Token → Option Token → String → List Link → List Link
  | [], _, _, links => links
  | tok :: rest, start, text, links =>
    if tok.ttype = TokType.error then links
    else
      if tok.dataAtom = anchorAtom then
        match tok.ttype with
        | TokType.startTag =>
          extractLoop depth rest (if 0 < tok.attr.length then some tok else start)
            (accText start tok text) links
        | TokType.endTag =>
          match start with
          | none => links
          | some st =>
            extractLoop depth rest none "" (anchorOut st (accText start tok text) depth links)
        | _ => extractLoop depth rest start (accText start tok text) links
      else extractLoop depth rest start (accText start tok text) links

/-- Variant 2 ExtractLinks: run the loop from the idle state. -/
def ExtractLinks (body : List Token) (depth : Nat) : List Link :=
  extractLoop depth body none "" []

end V2

/-- What the transport layer yields for one URL: either a transport-level
failure of http.Get, or a response with a status code and a body (given as
the token stream its tokenization produces). -/
structure Response where
  statusCode : Nat
  body : List Token
  deriving DecidableEq, Repr

/-- Result of http.Get for a url, as far as the program can observe it. -/
inductive FetchResult where
  | transportError
  | success (resp : Response)
  deriving DecidableEq, Repr

/-- The errors the Go function getUrl actually returns through its named
error result.  Note that HttpGetError is NOT among them: the status-code
branch of getUrl constructs and logs an HttpGetError but never assigns it to
the named return err, so only transport errors are ever returned. -/
inductive GoError where
  | transport
  deriving DecidableEq, Repr

/-- The Go function getUrl (identical in both variants).  On a transport
error it returns the error; otherwise it returns the response with a nil
error, including when resp.StatusCode > 299 (that branch only logs). -/
def getUrl (fr : FetchResult) : Except GoError Response :=
  match fr with
  | FetchResult.transportError => Except.error GoError.transport
  | FetchResult.success resp => Except.ok resp

/-- Whether getUrl constructs and logs an HttpGetError value: exactly when
the transport succeeded and the status code exceeds 299. -/
def getUrlLogsHttpError (fr : FetchResult) : Bool :=
  match fr with
  | FetchResult.transportError => false
  | FetchResult.success resp => decide (299 < resp.statusCode)

/-- The single batch the variant 2 worker goroutine computes for a link at
depth d: empty on getUrl error, otherwise the extraction of the body at
depth d+1 (the status code is never consulted, since getUrl returned no
error for it). -/
def V2.workerBatch (fr : FetchResult) (d : Nat) : List Link :=
  match getUrl fr with
  | Except.error _ => []
  | Except.ok resp => V2.ExtractLinks resp.body (d + 1)

/-- The list of batches the variant 2 worker goroutine sends on the frontier
channel: an empty batch on getUrl error, the extracted batch on success —
exactly one batch on every path. -/
def V2.workerSends (fr : FetchResult) (d : Nat) : List (List Link) :=
  match getUrl fr with
  | Except.error _ => [[]]
  | Except.ok resp => [V2.ExtractLinks resp.body (d + 1)]

/-- The list of batches the variant 1 worker goroutine sends on the frontier
channel; none models the whole program crashing because ExtractLinks
panicked inside the goroutine.  On getUrl error the variant 1 worker returns
WITHOUT sending anything: zero batches. -/
def V1.workerSends (fr : FetchResult) (d : Nat) : Option (List (List Link)) :=
  match getUrl fr with
  | Except.error _ => some []
  | Except.ok resp => (V1.ExtractLinks resp.body (d + 1)).map (fun ls => [ls])

/-- The state the scheduler's control loop maintains during one crawl:
the visited map (as the list of urls marked true), the result list res, the
pending-sends counter n, and the multiset (as a list) of batches already
sent on the frontier channel but not yet received.  The trace and spawned
fields are ghost instrumentation: trace records every link the control loop
iterates over, in order, and spawned records every link for which a worker
goroutine is spawned. -/
structure CrawlState where
  visited : List String
  res : List Link
  n : Nat
  pending : List (List Link)
  trace : List Link
  spawned : List Link
  deriving DecidableEq, Repr

/-- How one crawl invocation ends in the model: the loop returned its result
state; or the loop blocked forever receiving on an empty frontier with n
positive; or a worker goroutine panicked, crashing the program; or the
model's fuel ran out before any of these. -/
inductive Outcome where
  | finished (s : CrawlState)
  | deadlocked (s : CrawlState)
  | panicked (s : CrawlState)
  | outOfFuel (s : CrawlState)
  deriving DecidableEq, Repr

/-- The state carried by an outcome, whatever the outcome is. -/
def Outcome.state : Outcome → CrawlState
  | finished s => s
  | deadlocked s => s
  | panicked s => s
  | outOfFuel s => s

/-- The seed batch both variants construct in the initial goroutine: one
link per seed url, with the trimmed url, the raw url as text, and depth 0,
sent as a single batch. -/
def seedLinks (urls : List String) : List Link :=
  urls.map (fun url => { url := goTrim url, text := url, depth := 0 })

namespace V2

/-- The body of variant 2's inner loop for one link of a received batch:
skip if visited; otherwise mark visited, append to res, and — unless the
depth equals maxDepth — increment n and spawn a worker whose single batch
joins the outstanding sends. -/
def processLink (world : String → FetchResult) (maxDepth : Nat)
    (s : CrawlState) (link : Link) : CrawlState :=
  if s.visited.contains link.url then { s with trace := s.trace ++ [link] }
  else if link.depth = maxDepth then
    { s with trace := s.trace ++ [link]
             visited := s.visited ++ [link.url]
             res := s.res ++ [link] }
  else
    { s with trace := s.trace ++ [link]
             visited := s.visited ++ [link.url]
             res := s.res ++ [link]
             n := s.n + 1
             pending := s.pending ++ [workerBatch (world link.url) link.depth]
             spawned := s.spawned ++ [link] }

/-- Variant 2's inner loop over a received batch. -/
def processBatch (world : String → FetchResult) (maxDepth : Nat)
    (s : CrawlState) (batch : List Link) : CrawlState :=
  batch.foldl (processLink world maxDepth) s

/-- One full iteration of variant 2's outer loop body, after the two guard
checks: receive the batch the schedule chose (removing it from the
outstanding sends), run the inner loop over it, then apply the loop
post-statement decrement of n. -/
def iterate (world : String → FetchResult) (maxDepth : Nat) (schedule : Nat → Nat)
    (t : Nat) (s : CrawlState) : CrawlState :=
  let idx := schedule t % s.pending.length
  let s2 := processBatch world maxDepth
    { s with pending := s.pending.eraseIdx idx } (s.pending.getD idx [])
  { s2 with n := s2.n - 1 }

/-- Variant 2's outer receive loop, driven by fuel; schedule picks which
outstanding batch the blocking receive yields at each iteration. -/
def crawlLoop (world : String → FetchResult) (maxDepth : Nat) (schedule : Nat → Nat) :
    Nat → Nat → CrawlState → Outcome
  | 0, _, s => Outcome.outOfFuel s
  | Nat.succ fuel, t, s =>
    if s.n = 0 then Outcome.finished s
    else if s.pending = [] then Outcome.deadlocked s
    else crawlLoop world maxDepth schedule fuel (t + 1) (iterate world maxDepth schedule t s)

/-- Variant 2's crawler: n starts at the number of seed urls, while the seed
goroutine sends exactly one batch holding all the seed links. -/
def crawler (urls : List String) (maxDepth : Nat) (world : String → FetchResult)
    (schedule : Nat → Nat) (fuel : Nat) : Outcome :=
  crawlLoop world maxDepth schedule fuel 0
    { visited := [], res := [], n := urls.length
      pending := [seedLinks urls], trace := [], spawned := [] }

end V2

namespace V1

/-- The body of variant 1's inner loop for one link: skip if visited; mark
visited; if the depth equals maxDepth + 1 set n to 0 and break out of the
inner loop; otherwise append to res, increment n and spawn a worker.  The
Bool flags the break; none models the program crashing because the spawned
worker's ExtractLinks panicked. -/
def processLink (world : String → FetchResult) (maxDepth : Nat)
    (s : CrawlState) (link : Link) : Option (CrawlState × Bool) :=
  if s.visited.contains link.url then some ({ s with trace := s.trace ++ [link] }, false)
  else if link.depth = maxDepth + 1 then
    some ({ s with trace := s.trace ++ [link]
                   visited := s.visited ++ [link.url]
                   n := 0 }, true)
  else
    match workerSends (world link.url) link.depth with
    | none => none
    | some batches =>
      some ({ s with trace := s.trace ++ [link]
                     visited := s.visited ++ [link.url]
                     res := s.res ++ [link]
                     n := s.n + 1
                     spawned := s.spawned ++ [link]
                     pending := s.pending ++ batches }, false)

/-- Variant 1's inner loop over a received batch, honouring the break. -/
def processBatch (world : String → FetchResult) (maxDepth : Nat) :
    CrawlState → List Link → Option CrawlState
  | s, [] => some s
  | s, link :: rest =>
    match processLink world maxDepth s link with
    | none => none
    | some (s1, true) => some s1
    | some (s1, false) => processBatch world maxDepth s1 rest

/-- One full iteration of variant 1's outer loop body, after the guard
checks: receive the scheduled batch, run the inner loop (which can break or
crash the program), then the post-statement decrement of n.  After a break
n is 0 and the Go int decrement makes it -1, failing the n > 0 condition;
with Nat the saturating decrement keeps 0, ending the loop identically. -/
def iterate (world : String → FetchResult) (maxDepth : Nat) (schedule : Nat → Nat)
    (t : Nat) (s : CrawlState) : Option CrawlState :=
  let idx := schedule t % s.pending.length
  match processBatch world maxDepth
      { s with pending := s.pending.eraseIdx idx } (s.pending.getD idx []) with
  | none => none
  | some s2 => some { s2 with n := s2.n - 1 }

/-- Variant 1's outer receive loop. -/
def crawlLoop (world : String → FetchResult) (maxDepth : Nat) (schedule : Nat → Nat) :
    Nat → Nat → CrawlState → Outcome
  | 0, _, s => Outcome.outOfFuel s
  | Nat.succ fuel, t, s =>
    if s.n = 0 then Outcome.finished s
    else if s.pending = [] then Outcome.deadlocked s
    else
      match iterate world maxDepth schedule t s with
      | none => Outcome.panicked s
      | some s2 => crawlLoop world maxDepth schedule fuel (t + 1) s2

/-- Variant 1's crawler. -/
def crawler (urls : List String) (maxDepth : Nat) (world : String → FetchResult)
    (schedule : Nat → Nat) (fuel : Nat) : Outcome :=
  crawlLoop world maxDepth schedule fuel 0
    { visited := [], res := [], n := urls.length
      pending := [seedLinks urls], trace := [], spawned := [] }

end V1

/-- An anchor start tag with one href attribute. -/
def aStart (href : String) : Token :=
  { ttype := TokType.startTag, dataAtom := "a", data := "a", attr := [("href", href)] }

/-- A text token. -/
def aText (t : String) : Token :=
  { ttype := TokType.text, dataAtom := "", data := t, attr := [] }

/-- An anchor end tag. -/
def aEnd : Token :=
  { ttype := TokType.endTag, dataAtom := "a", data := "a", attr := [] }

/-- The token stream of one complete well-formed anchor. -/
def pageTok (href txt : String) : List Token := [aStart href, aText txt, aEnd]

/-- FIFO schedule: the blocking receive always yields the oldest
outstanding batch. -/
def fifoSchedule : Nat → Nat := fun _ => 0

/-- A world where every fetch fails at the transport level. -/
def worldErr : String → FetchResult := fun _ => FetchResult.transportError

/-- A world: page x links to y and z, fetching y fails at the transport
level, and z is an empty page. -/
def worldXYZ : String → FetchResult := fun u =>
  if u = "x" then FetchResult.success { statusCode := 200, body := pageTok "y" "Y" ++ pageTok "z" "Z" }
  else if u = "z" then FetchResult.success { statusCode := 200, body := [] }
  else FetchResult.transportError

/-- The first link in a processing trace whose url is u, if any. -/
def firstWithUrl : List Link → String → Option Link
  | [], _ => none
  | l :: ls, u => if l.url = u then some l else firstWithUrl ls u

/-- All links of a list are at depth at most d. -/
def linksLE (d : Nat) (ls : List Link) : Prop := ∀ l ∈ ls, l.depth ≤ d

/-- The scheduler invariant behind dedup: result urls are pairwise
distinct, every result entry is the first link with its url in the control
loop's processing order, every result url is in the visited set, and the
visited set holds exactly the urls of processed links. -/
structure DedupInv (s : CrawlState) : Prop where
  nodup : (s.res.map Link.url).Nodup
  firstd : ∀ l ∈ s.res, firstWithUrl s.trace l.url = some l
  resvis : ∀ l ∈ s.res, l.url ∈ s.visited
  visTrace : ∀ u, u ∈ s.visited ↔ ∃ l ∈ s.trace, l.url = u

/-- Two crawl states agreeing on everything the acceptance decision reads
or writes (visited set, result and trace), leaving the fetch-dependent
parts (n, pending, spawned) unconstrained. -/
def AcceptAgree (s s' : CrawlState) : Prop :=
  s.visited = s'.visited ∧ s.res = s'.res ∧ s.trace = s'.trace

/-- Abstract state of the concurrency structure of one crawl: how many
worker goroutines sit at each program point of the worker body, plus the
occupancy of the requestTokens channel (the semaphore of capacity 10).
Worker program points: blocked in getUrl (nFetch); getUrl returned
successfully, blocked sending into requestTokens (nWait); holding a
requestTokens slot, running ExtractLinks (nExtract); done extracting or
failed, blocked sending the result batch on the frontier (nSend);
terminated (nDone). -/
structure SemState where
  nFetch : Nat
  nWait : Nat
  nExtract : Nat
  nSend : Nat
  nDone : Nat
  sem : Nat
  deriving DecidableEq, Repr

/-- One interleaving step of the crawl's concurrency structure.  spawn is
the scheduler starting a worker goroutine (the scheduler never blocks on
this, so arbitrarily many workers can pile up in the fetch phase); acquire
is the send into the capacity-10 requestTokens channel, enabled only while
fewer than 10 slots are held; release is the receive from it; fetchErrSend
is variant 2's error path (send the empty batch), fetchErrDone is variant
1's error path (return without sending). -/
inductive SemStep : SemState → SemState → Prop where
  | spawn (s : SemState) : SemStep s { s with nFetch := s.nFetch + 1 }
  | fetchOk (s : SemState) (h : 0 < s.nFetch) :
      SemStep s { s with nFetch := s.nFetch - 1, nWait := s.nWait + 1 }
  | fetchErrSend (s : SemState) (h : 0 < s.nFetch) :
      SemStep s { s with nFetch := s.nFetch - 1, nSend := s.nSend + 1 }
  | fetchErrDone (s : SemState) (h : 0 < s.nFetch) :
      SemStep s { s with nFetch := s.nFetch - 1, nDone := s.nDone + 1 }
  | acquire (s : SemState) (h : 0 < s.nWait) (hs : s.sem < 10) :
      SemStep s { s with nWait := s.nWait - 1, nExtract := s.nExtract + 1, sem := s.sem + 1 }
  | release (s : SemState) (h : 0 < s.nExtract) (hs : 0 < s.sem) :
      SemStep s { s with nExtract := s.nExtract - 1, nSend := s.nSend + 1, sem := s.sem - 1 }
  | send (s : SemState) (h : 0 < s.nSend) :
      SemStep s { s with nSend := s.nSend - 1, nDone := s.nDone + 1 }

/-- The concurrency state at the start of a crawl: no workers, empty
semaphore channel. -/
def initSem : SemState :=
  { nFetch := 0, nWait := 0, nExtract := 0, nSend := 0, nDone := 0, sem := 0 }

/-- States reachable by interleaving steps from the start of a crawl. -/
inductive SemReachable : SemState → Prop where
  | init : SemReachable initSem
  | step (s s' : SemState) : SemReachable s → SemStep s s' → SemReachable s'

theorem goGetD_mem {α : Type} : ∀ (l : List α) (i : Nat) (d : α), i < l.length → l.getD i d ∈ l := by
  intro l
  induction l with
  | nil => intro i d h; simp at h
  | cons a as ih =>
    intro i d h
    cases i with
    | zero => simp [List.getD_cons_zero]
    | succ i =>
      rw [List.getD_cons_succ]
      exact List.mem_cons_of_mem a (ih i d (by simpa using h))

theorem goMem_eraseIdx {α : Type} (l : List α) (i : Nat) (x : α)
    (h : x ∈ l.eraseIdx i) : x ∈ l :=
  List.Sublist.mem h (List.eraseIdx_sublist l i)

theorem goLength_eraseIdx {α : Type} (l : List α) (i : Nat) (h : i < l.length) :
    (l.eraseIdx i).length + 1 = l.length := by
  rw [List.length_eraseIdx, if_pos h]
  omega

theorem firstWithUrl_append_some : ∀ (tr tr2 : List Link) (u : String) (l : Link),
    firstWithUrl tr u = some l → firstWithUrl (tr ++ tr2) u = some l := by
  intro tr
  induction tr with
  | nil => intro tr2 u l h; simp [firstWithUrl] at h
  | cons a as ih =>
    intro tr2 u l h
    by_cases hau : a.url = u
    · rw [firstWithUrl, if_pos hau] at h
      simpa [List.cons_append, firstWithUrl, hau] using h
    · rw [firstWithUrl, if_neg hau] at h
      simp only [List.cons_append, firstWithUrl, if_neg hau]
      exact ih tr2 u l h

theorem firstWithUrl_none : ∀ (tr : List Link) (u : String),
    (∀ l ∈ tr, l.url ≠ u) → firstWithUrl tr u = none := by
  intro tr
  induction tr with
  | nil => intro u _; rfl
  | cons a as ih =>
    intro u h
    rw [firstWithUrl, if_neg (h a (List.mem_cons_self a as))]
    exact ih u (fun l hl => h l (List.mem_cons_of_mem a hl))

theorem firstWithUrl_append_new : ∀ (tr : List Link) (x : Link) (u : String),
    firstWithUrl tr u = none →
    firstWithUrl (tr ++ [x]) u = if x.url = u then some x else none := by
  intro tr
  induction tr with
  | nil => intro x u _; simp [firstWithUrl]
  | cons a as ih =>
    intro x u h
    by_cases hau : a.url = u
    · rw [firstWithUrl, if_pos hau] at h; cases h
    · rw [firstWithUrl, if_neg hau] at h
      simp only [List.cons_append, firstWithUrl, if_neg hau]
      exact ih x u h

theorem anchorOut_valid (st : Token) (text : String) (d : Nat) (links : List Link)
    (h : ∀ l ∈ links, l.Valid = true) : ∀ l ∈ anchorOut st text d links, l.Valid = true := by
  intro l hl
  rw [anchorOut] at hl
  split at hl
  · rcases List.mem_append.mp hl with h' | h'
    · exact h l h'
    · rename_i hvalid
      rw [List.mem_singleton.mp h']
      exact hvalid
  · exact h l hl

theorem V2.extractLoop_valid_v2 : ∀ (ts : List Token) (start : Option Token) (text : String)
    (acc : List Link) (d : Nat), (∀ l ∈ acc, l.Valid = true) →
    ∀ l ∈ V2.extractLoop d ts start text acc, l.Valid = true := by
  intro ts
  induction ts with
  | nil =>
    intro start text acc d hacc l hl
    rw [V2.extractLoop] at hl
    exact hacc l hl
  | cons tok rest ih =>
    intro start text acc d hacc l hl
    simp only [V2.extractLoop] at hl
    split at hl
    · exact hacc l hl
    · split at hl
      · split at hl
        · exact ih _ _ _ _ hacc l hl
        · split at hl
          · exact hacc l hl
          · exact ih _ _ _ _ (anchorOut_valid _ _ _ _ hacc) l hl
        · exact ih _ _ _ _ hacc l hl
      · exact ih _ _ _ _ hacc l hl

theorem V1.extractLoop_valid_v1 : ∀ (ts : List Token) (start : Option Token) (text : String)
    (acc : List Link) (d : Nat) (ls : List Link), (∀ l ∈ acc, l.Valid = true) →
    V1.extractLoop d ts start text acc = some ls → ∀ l ∈ ls, l.Valid = true := by
  intro ts
  induction ts with
  | nil =>
    intro start text acc d ls hacc h l hl
    rw [V1.extractLoop] at h
    cases h
    exact hacc l hl
  | cons tok rest ih =>
    intro start text acc d ls hacc h l hl
    simp only [V1.extractLoop] at h
    split at h
    · cases h; exact hacc l hl
    · split at h
      · split at h
        · exact ih _ _ _ _ _ hacc h l hl
        · split at h
          · cases h
          · exact ih _ _ _ _ _ (anchorOut_valid _ _ _ _ hacc) h l hl
        · exact ih _ _ _ _ _ hacc h l hl
      · exact ih _ _ _ _ _ hacc h l hl

/-- C1: the claim states that every Fetch Worker invocation sends exactly one
batch on the frontier channel on every code path, an empty batch on fetch
error.  Variant 2 does exactly that (its sends are always the one-element
list holding workerBatch), but variant 1's error path returns without
sending anything: zero batches, never decremented by the scheduler, so any
fetch error hangs the variant 1 crawl.  Variant 2 even carries a source
comment noting the bug this fixed.  The first conjunct evaluates variant 1's
worker at the failing input. -/
theorem spec_C1_worker_single_emission :
    V1.workerSends FetchResult.transportError 0 = some [] ∧
    (∀ (fr : FetchResult) (d : Nat), V2.workerSends fr d = [V2.workerBatch fr d]) ∧
    V2.workerBatch FetchResult.transportError 0 = [] := by
  refine ⟨rfl, ?_, rfl⟩
  intro fr d
  cases fr <;> rfl

/-- C3: the claim states that getUrl classifies status codes above 299 as an
error and that the crawl then performs no extraction and emits an empty
batch.  In the code the status branch constructs and logs an HttpGetError
but never assigns the named return err, so getUrl returns a nil error for a
404 response, and both workers extract links from the error body and emit
them: a non-empty batch.  Evaluated here at a 404 response whose body holds
one anchor. -/
theorem spec_C3_status_above_299 :
    getUrlLogsHttpError (FetchResult.success { statusCode := 404, body := pageTok "y" "Y" }) = true ∧
    getUrl (FetchResult.success { statusCode := 404, body := pageTok "y" "Y" }) =
      Except.ok { statusCode := 404, body := pageTok "y" "Y" } ∧
    V2.workerSends (FetchResult.success { statusCode := 404, body := pageTok "y" "Y" }) 0 =
      [[{ url := "y", text := "Y", depth := 1 }]] ∧
    V1.workerSends (FetchResult.success { statusCode := 404, body := pageTok "y" "Y" }) 0 =
      some [[{ url := "y", text := "Y", depth := 1 }]] := by
  refine ⟨rfl, rfl, ?_, ?_⟩ <;> decide

/-- C5 counterexample: the claim states that on an anchor end tag with no
held start tag ExtractLinks logs a warning, does not crash, and continues
extracting the rest of the document.  Variant 1 crashes (nil start pointer
dereference, modelled as none), and variant 2 aborts: on an orphaned close
followed by a complete valid anchor it returns the empty list instead of
the one link continuation would find. -/
theorem spec_C5_cex :
    V1.ExtractLinks [aEnd] 0 = none ∧
    V2.ExtractLinks (aEnd :: pageTok "y" "Y") 0 = [] :=
  ⟨rfl, rfl⟩

/-- C5 amended: on an anchor end-tag token while no start tag is held,
variant 1 logs the warning and then dereferences the nil start pointer,
crashing the program; variant 2 logs the warning and returns the links
accumulated so far, aborting extraction of the remaining tokens.  Neither
variant continues extraction. -/
theorem spec_C5_orphan_close (tok : Token) (ts : List Token) (text : String)
    (acc : List Link) (d : Nat)
    (h1 : tok.ttype = TokType.endTag) (h2 : tok.dataAtom = anchorAtom) :
    V1.extractLoop d (tok :: ts) none text acc = none ∧
    V2.extractLoop d (tok :: ts) none text acc = acc := by
  constructor
  · simp [V1.extractLoop, h1, h2]
  · simp [V2.extractLoop, h1, h2]

/-- C5 witness: the amended statement at a concrete orphaned close token. -/
theorem spec_C5_orphan_close_witness :
    V1.extractLoop 0 [aEnd] none "" [] = none ∧
    V2.extractLoop 0 [aEnd] none "" [] = [] :=
  spec_C5_orphan_close aEnd [] "" [] 0 rfl rfl

/-- C9: every link either variant's ExtractLinks returns satisfies the
Link.Valid predicate (non-empty text, non-empty url, no case-insensitive
"javascript" substring in the url); invalid links are never appended. -/
theorem spec_C9_validity_filter (body : List Token) (d : Nat) :
    (∀ l ∈ V2.ExtractLinks body d, l.Valid = true) ∧
    (∀ ls, V1.ExtractLinks body d = some ls → ∀ l ∈ ls, l.Valid = true) := by
  constructor
  · exact V2.extractLoop_valid_v2 body none "" [] d (by intro l hl; simp at hl)
  · intro ls h
    exact V1.extractLoop_valid_v1 body none "" [] d ls (by intro l hl; simp at hl) h

/-- C9 witness: the filter evaluated on a concrete page for variant 1. -/
theorem spec_C9_validity_filter_witness :
    ({ url := "y", text := "Y", depth := 0 } : Link).Valid = true :=
  (spec_C9_validity_filter (pageTok "y" "Y") 0).2 [{ url := "y", text := "Y", depth := 0 }]
    (by decide) { url := "y", text := "Y", depth := 0 } (by decide)

theorem semReachable_sem_eq : ∀ s, SemReachable s → s.sem = s.nExtract ∧ s.sem ≤ 10 := by
  intro s h
  induction h with
  | init => exact ⟨rfl, by decide⟩
  | step s s' _ hstep ih => cases hstep <;> simp_all <;> omega

theorem semReachable_unbounded_fetch : ∀ k : Nat, ∃ s, SemReachable s ∧ s.nFetch = k := by
  intro k
  induction k with
  | zero => exact ⟨initSem, SemReachable.init, rfl⟩
  | succ k ih =>
    obtain ⟨s, hs, hk⟩ := ih
    refine ⟨_, SemReachable.step s _ hs (SemStep.spawn s), ?_⟩
    simp [hk]

/-- C10: in every reachable interleaving of the crawl's concurrency
structure, at most 10 workers are inside ExtractLinks at once (the
requestTokens channel of capacity 10 is acquired right before the extractor
and released right after), while the number of workers blocked in the fetch
itself is unbounded: for every k some reachable state has k concurrent
fetches in flight. -/
theorem spec_C10_concurrency_ceiling :
    (∀ s, SemReachable s → s.nExtract ≤ 10) ∧
    (∀ k : Nat, ∃ s, SemReachable s ∧ s.nFetch = k) := by
  constructor
  · intro s h
    have h2 := semReachable_sem_eq s h
    omega
  · exact semReachable_unbounded_fetch

/-- C10 witness: the ceiling applied at the initial reachable state. -/
theorem spec_C10_concurrency_ceiling_witness : initSem.nExtract ≤ 10 :=
  spec_C10_concurrency_ceiling.1 initSem SemReachable.init

theorem V2.processLink_n_pending (w : String → FetchResult) (mD : Nat)
    (s : CrawlState) (link : Link) :
    (V2.processLink w mD s link).n + s.pending.length =
    (V2.processLink w mD s link).pending.length + s.n := by
  rw [V2.processLink]
  split
  · simp only
    omega
  · split
    · simp only
      omega
    · simp only [List.length_append, List.length_cons, List.length_nil]
      omega

theorem V2.processBatch_n_pending (w : String → FetchResult) (mD : Nat) :
    ∀ (batch : List Link) (s : CrawlState),
    (V2.processBatch w mD s batch).n + s.pending.length =
    (V2.processBatch w mD s batch).pending.length + s.n := by
  intro batch
  induction batch with
  | nil =>
    intro s
    simp only [V2.processBatch, List.foldl_nil]
    omega
  | cons l ls ih =>
    intro s
    have h1 := V2.processLink_n_pending w mD s l
    have h2 := ih (V2.processLink w mD s l)
    simp only [V2.processBatch, List.foldl_cons] at h2 ⊢
    omega

theorem V2.iterate_balanced (w : String → FetchResult) (mD : Nat) (sch : Nat → Nat)
    (t : Nat) (s : CrawlState) (hbal : s.n = s.pending.length) (h0 : s.n ≠ 0) :
    (V2.iterate w mD sch t s).n = (V2.iterate w mD sch t s).pending.length := by
  have hidx : sch t % s.pending.length < s.pending.length := Nat.mod_lt _ (by omega)
  have herase := goLength_eraseIdx s.pending (sch t % s.pending.length) hidx
  have hpb := V2.processBatch_n_pending w mD (s.pending.getD (sch t % s.pending.length) [])
    { s with pending := s.pending.eraseIdx (sch t % s.pending.length) }
  simp only [V2.iterate]
  simp only at hpb
  omega

theorem V2.crawlLoop_no_deadlock (w : String → FetchResult) (mD : Nat) (sch : Nat → Nat) :
    ∀ (fuel t : Nat) (s : CrawlState), s.n = s.pending.length →
    ∀ s', V2.crawlLoop w mD sch fuel t s ≠ Outcome.deadlocked s' := by
  intro fuel
  induction fuel with
  | zero =>
    intro t s hbal s' h
    simp only [V2.crawlLoop] at h
    cases h
  | succ fuel ih =>
    intro t s hbal s' h
    simp only [V2.crawlLoop] at h
    split at h
    · cases h
    · split at h
      · rename_i h0 hp
        rw [hp] at hbal
        exact h0 hbal
      · rename_i h0 _
        exact ih (t + 1) (V2.iterate w mD sch t s) (V2.iterate_balanced w mD sch t s hbal h0) s' h

theorem V2.crawlLoop_finished_n (w : String → FetchResult) (mD : Nat) (sch : Nat → Nat) :
    ∀ (fuel t : Nat) (s s' : CrawlState),
    V2.crawlLoop w mD sch fuel t s = Outcome.finished s' → s'.n = 0 := by
  intro fuel
  induction fuel with
  | zero =>
    intro t s s' h
    simp only [V2.crawlLoop] at h
    cases h
  | succ fuel ih =>
    intro t s s' h
    simp only [V2.crawlLoop] at h
    split at h
    · rename_i h0
      cases h
      exact h0
    · split at h
      · cases h
      · exact ih (t + 1) _ s' h

/-- C2 counterexample: with two seed urls the pending counter n starts at 2
while only one batch (the single seed batch carrying both seeds) is ever
outstanding, so after that batch is received and neither seed spawns a
worker (maxDepth 0), the loop sits at n = 1 with nothing left to receive
and blocks forever: it does not return when all batches have been received,
and n does not equal the number of outstanding batches. -/
theorem spec_C2_cex :
    V2.crawler ["a", "b"] 0 worldErr fifoSchedule 4 =
      Outcome.deadlocked
        { visited := ["a", "b"]
          res := [{ url := "a", text := "a", depth := 0 }, { url := "b", text := "b", depth := 0 }]
          n := 1
          pending := []
          trace := [{ url := "a", text := "a", depth := 0 }, { url := "b", text := "b", depth := 0 }]
          spawned := [] } := by
  decide

/-- C2 amended: for crawls with a single seed url (the only shape every
call site of crawler actually uses), exactly one seed batch carrying the
seed links is produced, the counter n equals the number of outstanding
batches at every iteration (so the variant 2 loop can never block on an
empty frontier), and the loop returns exactly when n reaches 0.  With two
or more seeds n starts above the one outstanding seed batch and the loop
blocks forever. -/
theorem spec_C2_pending_counter (u : String) (maxDepth : Nat)
    (world : String → FetchResult) (schedule : Nat → Nat) (fuel : Nat) :
    seedLinks [u] = [{ url := goTrim u, text := u, depth := 0 }] ∧
    (∀ s', V2.crawler [u] maxDepth world schedule fuel ≠ Outcome.deadlocked s') ∧
    (∀ s', V2.crawler [u] maxDepth world schedule fuel = Outcome.finished s' → s'.n = 0) := by
  refine ⟨rfl, ?_, ?_⟩
  · intro s'
    exact V2.crawlLoop_no_deadlock world maxDepth schedule fuel 0 _ rfl s'
  · intro s' h
    exact V2.crawlLoop_finished_n world maxDepth schedule fuel 0 _ s' h

/-- C2 witness: the amended statement applied to a concrete single-seed
crawl that finishes. -/
theorem spec_C2_pending_counter_witness :
    ({ visited := ["x"], res := [{ url := "x", text := "x", depth := 0 }], n := 0, pending := []
       trace := [{ url := "x", text := "x", depth := 0 }], spawned := [] } : CrawlState).n = 0 :=
  (spec_C2_pending_counter "x" 0 worldErr fifoSchedule 3).2.2 _ (by decide)

/-- C4 counterexample: in variant 1 the depth check (against maxDepth + 1)
comes before the append and does not stop expansion of links at depth
maxDepth: with a single seed and maxDepth = 0 a worker IS spawned for the
seed (the ghost spawned list is non-empty, i.e. a fetch of page x occurs),
contradicting the claim that a link at depth maxDepth is never expanded and
that no fetch occurs in this scenario.  The loop only stops when the
depth-1 links of that fetch arrive. -/
theorem spec_C4_cex :
    V1.crawler ["x"] 0 worldXYZ fifoSchedule 4 =
      Outcome.finished
        { visited := ["x", "y"]
          res := [{ url := "x", text := "x", depth := 0 }]
          n := 0
          pending := []
          trace := [{ url := "x", text := "x", depth := 0 }, { url := "y", text := "Y", depth := 1 }]
          spawned := [{ url := "x", text := "x", depth := 0 }] } := by
  decide

/-- C4 amended: in variant 2 an unvisited link at depth exactly maxDepth is
appended to the result but spawns no worker (acceptance before the depth
check), and the single-seed maxDepth-0 scenario returns exactly the seed
link with no worker ever spawned; in variant 1 the same scenario also
returns exactly the seed link, but a worker is spawned for the seed (a
fetch occurs), and the crawl only returns when a depth maxDepth + 1 link
arrives and triggers the break. -/
theorem spec_C4_at_max_depth (world : String → FetchResult) (maxDepth : Nat)
    (s : CrawlState) (link : Link)
    (hv : s.visited.contains link.url = false) (hd : link.depth = maxDepth) :
    (V2.processLink world maxDepth s link =
      { s with trace := s.trace ++ [link]
               visited := s.visited ++ [link.url]
               res := s.res ++ [link] }) ∧
    V2.crawler ["x"] 0 worldXYZ fifoSchedule 4 =
      Outcome.finished
        { visited := ["x"]
          res := [{ url := "x", text := "x", depth := 0 }]
          n := 0
          pending := []
          trace := [{ url := "x", text := "x", depth := 0 }]
          spawned := [] } ∧
    V1.crawler ["x"] 0 worldXYZ fifoSchedule 4 =
      Outcome.finished
        { visited := ["x", "y"]
          res := [{ url := "x", text := "x", depth := 0 }]
          n := 0
          pending := []
          trace := [{ url := "x", text := "x", depth := 0 }, { url := "y", text := "Y", depth := 1 }]
          spawned := [{ url := "x", text := "x", depth := 0 }] } := by
  refine ⟨?_, by decide, by decide⟩
  have hm : link.url ∉ s.visited := by
    intro hmem
    have hv2 : List.elem link.url s.visited = false := hv
    rw [List.elem_iff.mpr hmem] at hv2
    cases hv2
  simp [V2.processLink, hd, hm]

/-- C4 witness: the variant 2 statement applied to a concrete unvisited
link at depth maxDepth. -/
theorem spec_C4_at_max_depth_witness :
    V2.processLink worldXYZ 0
      { visited := [], res := [], n := 1, pending := [], trace := [], spawned := [] }
      { url := "x", text := "x", depth := 0 } =
      { visited := ["x"]
        res := [{ url := "x", text := "x", depth := 0 }]
        n := 1
        pending := []
        trace := [{ url := "x", text := "x", depth := 0 }]
        spawned := [] } :=
  (spec_C4_at_max_depth worldXYZ 0
    { visited := [], res := [], n := 1, pending := [], trace := [], spawned := [] }
    { url := "x", text := "x", depth := 0 } rfl rfl).1

theorem V2.processLink_accept_agree (w1 w2 : String → FetchResult) (mD : Nat)
    (s s' : CrawlState) (link : Link) (h : AcceptAgree s s') :
    AcceptAgree (V2.processLink w1 mD s link) (V2.processLink w2 mD s' link) := by
  obtain ⟨hv, hr, ht⟩ := h
  by_cases hc : link.url ∈ s.visited
  · simp [V2.processLink, AcceptAgree, ← hv, ← hr, ← ht, hc]
  · by_cases hd : link.depth = mD
    · simp [V2.processLink, AcceptAgree, ← hv, ← hr, ← ht, hc, hd]
    · simp [V2.processLink, AcceptAgree, ← hv, ← hr, ← ht, hc, hd]

theorem V2.processBatch_accept_agree (w1 w2 : String → FetchResult) (mD : Nat) :
    ∀ (batch : List Link) (s s' : CrawlState), AcceptAgree s s' →
    AcceptAgree (V2.processBatch w1 mD s batch) (V2.processBatch w2 mD s' batch) := by
  intro batch
  induction batch with
  | nil => intro s s' h; exact h
  | cons l ls ih =>
    intro s s' h
    exact ih (V2.processLink w1 mD s l) (V2.processLink w2 mD s' l)
      (V2.processLink_accept_agree w1 w2 mD s s' l h)

/-- C6 counterexample: page x links to y and z, the fetch of y fails at the
transport level, maxDepth 2.  In variant 2 the crawl terminates and the
sibling z is processed normally, but — contradicting the claim — the url y
DOES appear in the returned result (links are appended at acceptance,
before their fetch).  In variant 1 — also contradicting the claim — the
crawl never terminates, because the error path of its worker sends no
batch: the loop blocks at n = 1 with no outstanding batch. -/
theorem spec_C6_cex :
    (V2.crawler ["x"] 2 worldXYZ fifoSchedule 6 =
      Outcome.finished
        { visited := ["x", "y", "z"]
          res := [{ url := "x", text := "x", depth := 0 }, { url := "y", text := "Y", depth := 1 },
                  { url := "z", text := "Z", depth := 1 }]
          n := 0
          pending := []
          trace := [{ url := "x", text := "x", depth := 0 }, { url := "y", text := "Y", depth := 1 },
                    { url := "z", text := "Z", depth := 1 }]
          spawned := [{ url := "x", text := "x", depth := 0 }, { url := "y", text := "Y", depth := 1 },
                      { url := "z", text := "Z", depth := 1 }] }) ∧
    (V1.crawler ["x"] 2 worldXYZ fifoSchedule 6 =
      Outcome.deadlocked
        { visited := ["x", "y", "z"]
          res := [{ url := "x", text := "x", depth := 0 }, { url := "y", text := "Y", depth := 1 },
                  { url := "z", text := "Z", depth := 1 }]
          n := 1
          pending := []
          trace := [{ url := "x", text := "x", depth := 0 }, { url := "y", text := "Y", depth := 1 },
                    { url := "z", text := "Z", depth := 1 }]
          spawned := [{ url := "x", text := "x", depth := 0 }, { url := "y", text := "Y", depth := 1 },
                      { url := "z", text := "Z", depth := 1 }] }) := by
  exact ⟨by decide, by decide⟩

/-- C6 amended: fetch outcomes never influence acceptance — processing a
batch yields the same visited set, result and trace under any two worlds,
so a transport error for one link leaves that link in the result and its
siblings processed exactly as on success (only its children are lost); in
variant 2 such a crawl still terminates, while in variant 1 the error path
sends no batch and the crawl never terminates. -/
theorem spec_C6_transport_error :
    (∀ (w1 w2 : String → FetchResult) (mD : Nat) (batch : List Link) (s s' : CrawlState),
      AcceptAgree s s' →
      AcceptAgree (V2.processBatch w1 mD s batch) (V2.processBatch w2 mD s' batch)) ∧
    (V2.crawler ["x"] 2 worldXYZ fifoSchedule 6 =
      Outcome.finished
        { visited := ["x", "y", "z"]
          res := [{ url := "x", text := "x", depth := 0 }, { url := "y", text := "Y", depth := 1 },
                  { url := "z", text := "Z", depth := 1 }]
          n := 0
          pending := []
          trace := [{ url := "x", text := "x", depth := 0 }, { url := "y", text := "Y", depth := 1 },
                    { url := "z", text := "Z", depth := 1 }]
          spawned := [{ url := "x", text := "x", depth := 0 }, { url := "y", text := "Y", depth := 1 },
                      { url := "z", text := "Z", depth := 1 }] }) ∧
    (V1.crawler ["x"] 2 worldXYZ fifoSchedule 6 =
      Outcome.deadlocked
        { visited := ["x", "y", "z"]
          res := [{ url := "x", text := "x", depth := 0 }, { url := "y", text := "Y", depth := 1 },
                  { url := "z", text := "Z", depth := 1 }]
          n := 1
          pending := []
          trace := [{ url := "x", text := "x", depth := 0 }, { url := "y", text := "Y", depth := 1 },
                    { url := "z", text := "Z", depth := 1 }]
          spawned := [{ url := "x", text := "x", depth := 0 }, { url := "y", text := "Y", depth := 1 },
                      { url := "z", text := "Z", depth := 1 }] }) := by
  exact ⟨fun w1 w2 mD batch s s' h => V2.processBatch_accept_agree w1 w2 mD batch s s' h,
    by decide, by decide⟩

/-- C6 witness: the world-independence statement applied to a concrete
batch under an all-errors world and a world where the fetches succeed. -/
theorem spec_C6_transport_error_witness :
    AcceptAgree
      (V2.processBatch worldErr 0
        { visited := [], res := [], n := 1, pending := [], trace := [], spawned := [] }
        [{ url := "x", text := "x", depth := 0 }])
      (V2.processBatch worldXYZ 0
        { visited := [], res := [], n := 1, pending := [], trace := [], spawned := [] }
        [{ url := "x", text := "x", depth := 0 }]) :=
  spec_C6_transport_error.1 worldErr worldXYZ 0
    [{ url := "x", text := "x", depth := 0 }] _ _ ⟨rfl, rfl, rfl⟩

theorem goGetD_oob {α : Type} : ∀ (l : List α) (i : Nat) (d : α), l.length ≤ i → l.getD i d = d := by
  intro l
  induction l with
  | nil => intro i d _; cases i <;> rfl
  | cons a as ih =>
    intro i d h
    cases i with
    | zero => simp at h
    | succ i =>
      rw [List.getD_cons_succ]
      exact ih i d (by simpa using h)

theorem pendingBatch_bound (P : Link → Prop) (pending : List (List Link)) (i : Nat)
    (h : ∀ b ∈ pending, ∀ l ∈ b, P l) : ∀ l ∈ pending.getD i [], P l := by
  by_cases hlen : i < pending.length
  · exact h _ (goGetD_mem pending i [] hlen)
  · rw [goGetD_oob pending i [] (by omega)]
    intro l hl
    exact absurd hl (List.not_mem_nil l)

theorem anchorOut_depth (st : Token) (text : String) (d : Nat) (links : List Link)
    (h : ∀ l ∈ links, l.depth = d) : ∀ l ∈ anchorOut st text d links, l.depth = d := by
  intro l hl
  rw [anchorOut] at hl
  split at hl
  · rcases List.mem_append.mp hl with h' | h'
    · exact h l h'
    · rw [List.mem_singleton.mp h']
      rfl
  · exact h l hl

theorem V2.extractLoop_depth_v2 : ∀ (ts : List Token) (start : Option Token) (text : String)
    (acc : List Link) (d : Nat), (∀ l ∈ acc, l.depth = d) →
    ∀ l ∈ V2.extractLoop d ts start text acc, l.depth = d := by
  intro ts
  induction ts with
  | nil =>
    intro start text acc d hacc l hl
    rw [V2.extractLoop] at hl
    exact hacc l hl
  | cons tok rest ih =>
    intro start text acc d hacc l hl
    simp only [V2.extractLoop] at hl
    split at hl
    · exact hacc l hl
    · split at hl
      · split at hl
        · exact ih _ _ _ _ hacc l hl
        · split at hl
          · exact hacc l hl
          · exact ih _ _ _ _ (anchorOut_depth _ _ _ _ hacc) l hl
        · exact ih _ _ _ _ hacc l hl
      · exact ih _ _ _ _ hacc l hl

theorem V1.extractLoop_depth_v1 : ∀ (ts : List Token) (start : Option Token) (text : String)
    (acc : List Link) (d : Nat) (ls : List Link), (∀ l ∈ acc, l.depth = d) →
    V1.extractLoop d ts start text acc = some ls → ∀ l ∈ ls, l.depth = d := by
  intro ts
  induction ts with
  | nil =>
    intro start text acc d ls hacc h l hl
    rw [V1.extractLoop] at h
    cases h
    exact hacc l hl
  | cons tok rest ih =>
    intro start text acc d ls hacc h l hl
    simp only [V1.extractLoop] at h
    split at h
    · cases h; exact hacc l hl
    · split at h
      · split at h
        · exact ih _ _ _ _ _ hacc h l hl
        · split at h
          · cases h
          · exact ih _ _ _ _ _ (anchorOut_depth _ _ _ _ hacc) h l hl
        · exact ih _ _ _ _ _ hacc h l hl
      · exact ih _ _ _ _ _ hacc h l hl

theorem V2.workerBatch_depth (fr : FetchResult) (d : Nat) :
    ∀ l ∈ V2.workerBatch fr d, l.depth = d + 1 := by
  cases fr with
  | transportError =>
    intro l hl
    exact absurd hl (List.not_mem_nil l)
  | success resp =>
    intro l hl
    exact V2.extractLoop_depth_v2 resp.body none "" [] (d + 1)
      (fun l' hl' => absurd hl' (List.not_mem_nil l')) l hl

theorem V1.workerSends_depth (fr : FetchResult) (d : Nat) (batches : List (List Link))
    (h : V1.workerSends fr d = some batches) : ∀ b ∈ batches, ∀ l ∈ b, l.depth = d + 1 := by
  cases fr with
  | transportError =>
    simp only [V1.workerSends, getUrl] at h
    cases h
    intro b hb
    exact absurd hb (List.not_mem_nil b)
  | success resp =>
    simp only [V1.workerSends, getUrl] at h
    cases hex : V1.ExtractLinks resp.body (d + 1) with
    | none => rw [hex] at h; cases h
    | some ls =>
      rw [hex] at h
      simp only [Option.map_some'] at h
      cases h
      intro b hb l hl
      rw [List.mem_singleton.mp hb] at hl
      exact V1.extractLoop_depth_v1 resp.body none "" [] (d + 1) ls
        (fun l' hl' => absurd hl' (List.not_mem_nil l')) hex l hl

theorem V2.processLink_depthInv_v2 (w : String → FetchResult) (mD : Nat)
    (s : CrawlState) (link : Link)
    (h1 : linksLE mD s.res) (h2 : ∀ b ∈ s.pending, linksLE mD b) (hl : link.depth ≤ mD) :
    linksLE mD (V2.processLink w mD s link).res ∧
    ∀ b ∈ (V2.processLink w mD s link).pending, linksLE mD b := by
  rw [V2.processLink]
  split
  · exact ⟨h1, h2⟩
  · split
    · refine ⟨?_, h2⟩
      intro l hlm
      rcases List.mem_append.mp hlm with h' | h'
      · exact h1 l h'
      · rw [List.mem_singleton.mp h']
        exact hl
    · rename_i hnv hd
      constructor
      · intro l hlm
        rcases List.mem_append.mp hlm with h' | h'
        · exact h1 l h'
        · rw [List.mem_singleton.mp h']
          exact hl
      · intro b hb
        rcases List.mem_append.mp hb with h' | h'
        · exact h2 b h'
        · rw [List.mem_singleton.mp h']
          intro l hlb
          have hld := V2.workerBatch_depth (w link.url) link.depth l hlb
          omega

theorem V2.processBatch_depthInv_v2 (w : String → FetchResult) (mD : Nat) :
    ∀ (batch : List Link) (s : CrawlState),
    linksLE mD s.res → (∀ b ∈ s.pending, linksLE mD b) → linksLE mD batch →
    linksLE mD (V2.processBatch w mD s batch).res ∧
    ∀ b ∈ (V2.processBatch w mD s batch).pending, linksLE mD b := by
  intro batch
  induction batch with
  | nil => intro s h1 h2 _; exact ⟨h1, h2⟩
  | cons l ls ih =>
    intro s h1 h2 hb
    have hstep := V2.processLink_depthInv_v2 w mD s l h1 h2 (hb l (List.mem_cons_self l ls))
    exact ih (V2.processLink w mD s l) hstep.1 hstep.2
      (fun l' hl' => hb l' (List.mem_cons_of_mem l hl'))

theorem V2.iterate_depthInv_v2 (w : String → FetchResult) (mD : Nat) (sch : Nat → Nat)
    (t : Nat) (s : CrawlState)
    (h1 : linksLE mD s.res) (h2 : ∀ b ∈ s.pending, linksLE mD b) :
    linksLE mD (V2.iterate w mD sch t s).res ∧
    ∀ b ∈ (V2.iterate w mD sch t s).pending, linksLE mD b := by
  have hbatch := pendingBatch_bound (fun l => l.depth ≤ mD) s.pending
    (sch t % s.pending.length) h2
  have h2e : ∀ b ∈ s.pending.eraseIdx (sch t % s.pending.length), linksLE mD b :=
    fun b hb => h2 b (goMem_eraseIdx s.pending _ b hb)
  have hstep := V2.processBatch_depthInv_v2 w mD (s.pending.getD (sch t % s.pending.length) [])
    { s with pending := s.pending.eraseIdx (sch t % s.pending.length) } h1 h2e hbatch
  simp only [V2.iterate]
  exact hstep

theorem V2.crawlLoop_depthInv_v2 (w : String → FetchResult) (mD : Nat) (sch : Nat → Nat) :
    ∀ (fuel t : Nat) (s s' : CrawlState),
    linksLE mD s.res → (∀ b ∈ s.pending, linksLE mD b) →
    V2.crawlLoop w mD sch fuel t s = Outcome.finished s' → linksLE mD s'.res := by
  intro fuel
  induction fuel with
  | zero =>
    intro t s s' _ _ h
    simp only [V2.crawlLoop] at h
    cases h
  | succ fuel ih =>
    intro t s s' h1 h2 h
    simp only [V2.crawlLoop] at h
    split at h
    · cases h
      exact h1
    · split at h
      · cases h
      · have hstep := V2.iterate_depthInv_v2 w mD sch t s h1 h2
        exact ih (t + 1) _ s' hstep.1 hstep.2 h

theorem V1.processLink_depthInv_v1 (w : String → FetchResult) (mD : Nat)
    (s : CrawlState) (link : Link) (out : CrawlState × Bool)
    (h1 : linksLE mD s.res) (h2 : ∀ b ∈ s.pending, ∀ l ∈ b, l.depth ≤ mD + 1)
    (hl : link.depth ≤ mD + 1)
    (hp : V1.processLink w mD s link = some out) :
    linksLE mD out.1.res ∧ ∀ b ∈ out.1.pending, ∀ l ∈ b, l.depth ≤ mD + 1 := by
  rw [V1.processLink] at hp
  split at hp
  · cases hp
    exact ⟨h1, h2⟩
  · rename_i hnv
    split at hp
    · cases hp
      exact ⟨h1, h2⟩
    · rename_i hd
      split at hp
      · cases hp
      · rename_i batches hws
        cases hp
        constructor
        · intro l hlm
          rcases List.mem_append.mp hlm with h' | h'
          · exact h1 l h'
          · rw [List.mem_singleton.mp h']
            omega
        · intro b hb
          rcases List.mem_append.mp hb with h' | h'
          · exact h2 b h'
          · intro l hlb
            have hld := V1.workerSends_depth (w link.url) link.depth batches hws b h' l hlb
            omega

theorem V1.processBatch_depthInv_v1 (w : String → FetchResult) (mD : Nat) :
    ∀ (batch : List Link) (s s1 : CrawlState),
    linksLE mD s.res → (∀ b ∈ s.pending, ∀ l ∈ b, l.depth ≤ mD + 1) →
    (∀ l ∈ batch, l.depth ≤ mD + 1) →
    V1.processBatch w mD s batch = some s1 →
    linksLE mD s1.res ∧ ∀ b ∈ s1.pending, ∀ l ∈ b, l.depth ≤ mD + 1 := by
  intro batch
  induction batch with
  | nil =>
    intro s s1 h1 h2 _ hp
    simp only [V1.processBatch] at hp
    cases hp
    exact ⟨h1, h2⟩
  | cons l ls ih =>
    intro s s1 h1 h2 hb hp
    simp only [V1.processBatch] at hp
    cases hpl : V1.processLink w mD s l with
    | none =>
      rw [hpl] at hp
      cases hp
    | some out =>
      rw [hpl] at hp
      obtain ⟨sX, brk⟩ := out
      cases brk with
      | true =>
        have hp2 : some sX = some s1 := hp
        cases hp2
        exact V1.processLink_depthInv_v1 w mD s l (s1, true) h1 h2
          (hb l (List.mem_cons_self l ls)) hpl
      | false =>
        have hstep := V1.processLink_depthInv_v1 w mD s l (sX, false) h1 h2
          (hb l (List.mem_cons_self l ls)) hpl
        exact ih sX s1 hstep.1 hstep.2 (fun l' hl' => hb l' (List.mem_cons_of_mem l hl')) hp

theorem V1.iterate_depthInv_v1 (w : String → FetchResult) (mD : Nat) (sch : Nat → Nat)
    (t : Nat) (s s2 : CrawlState)
    (h1 : linksLE mD s.res) (h2 : ∀ b ∈ s.pending, ∀ l ∈ b, l.depth ≤ mD + 1)
    (hp : V1.iterate w mD sch t s = some s2) :
    linksLE mD s2.res ∧ ∀ b ∈ s2.pending, ∀ l ∈ b, l.depth ≤ mD + 1 := by
  simp only [V1.iterate] at hp
  split at hp
  · cases hp
  · rename_i sX hX
    cases hp
    have hbatch := pendingBatch_bound (fun l => l.depth ≤ mD + 1) s.pending
      (sch t % s.pending.length) h2
    have h2e : ∀ b ∈ s.pending.eraseIdx (sch t % s.pending.length), ∀ l ∈ b, l.depth ≤ mD + 1 :=
      fun b hb => h2 b (goMem_eraseIdx s.pending _ b hb)
    exact V1.processBatch_depthInv_v1 w mD (s.pending.getD (sch t % s.pending.length) [])
      { s with pending := s.pending.eraseIdx (sch t % s.pending.length) } sX h1 h2e hbatch hX

theorem V1.crawlLoop_depthInv_v1 (w : String → FetchResult) (mD : Nat) (sch : Nat → Nat) :
    ∀ (fuel t : Nat) (s s' : CrawlState),
    linksLE mD s.res → (∀ b ∈ s.pending, ∀ l ∈ b, l.depth ≤ mD + 1) →
    V1.crawlLoop w mD sch fuel t s = Outcome.finished s' → linksLE mD s'.res := by
  intro fuel
  induction fuel with
  | zero =>
    intro t s s' _ _ h
    simp only [V1.crawlLoop] at h
    cases h
  | succ fuel ih =>
    intro t s s' h1 h2 h
    simp only [V1.crawlLoop] at h
    split at h
    · cases h
      exact h1
    · split at h
      · cases h
      · split at h
        · cases h
        · rename_i s2 hit
          have hstep := V1.iterate_depthInv_v1 w mD sch t s s2 h1 h2 hit
          exact ih (t + 1) s2 s' hstep.1 hstep.2 h

theorem seedLinks_depth (urls : List String) : ∀ l ∈ seedLinks urls, l.depth = 0 := by
  intro l hl
  rcases List.mem_map.mp hl with ⟨u, _, hu⟩
  rw [← hu]

/-- C7: for every crawl of either variant, with any world, schedule, fuel
and non-negative maxDepth, every link in the returned result has depth at
most maxDepth.  The two variants are covered by independent conjuncts, so
each variant's bound holds whenever THAT variant's crawl finishes,
regardless of what the other variant does in the same world.  (In variant 2
links at depth maxDepth are never expanded; in variant 1 pages at depth
maxDepth are fetched, but the depth maxDepth+1 links their batches carry
hit the break before the append and so never reach the result.) -/
theorem spec_C7_depth_bound (urls : List String) (maxDepth : Nat)
    (world : String → FetchResult) (schedule : Nat → Nat) (fuel : Nat) :
    (∀ s1, V1.crawler urls maxDepth world schedule fuel = Outcome.finished s1 →
      ∀ l ∈ s1.res, l.depth ≤ maxDepth) ∧
    (∀ s2, V2.crawler urls maxDepth world schedule fuel = Outcome.finished s2 →
      ∀ l ∈ s2.res, l.depth ≤ maxDepth) := by
  constructor
  · intro s1 h1
    refine V1.crawlLoop_depthInv_v1 world maxDepth schedule fuel 0 _ s1 ?_ ?_ h1
    · intro l hl
      exact absurd hl (List.not_mem_nil l)
    · intro b hb l hl
      rw [List.mem_singleton.mp hb] at hl
      rw [seedLinks_depth urls l hl]
      omega
  · intro s2 h2
    refine V2.crawlLoop_depthInv_v2 world maxDepth schedule fuel 0 _ s2 ?_ ?_ h2
    · intro l hl
      exact absurd hl (List.not_mem_nil l)
    · intro b hb l hl
      rw [List.mem_singleton.mp hb] at hl
      rw [seedLinks_depth urls l hl]
      omega

/-- C7 witness: the variant 1 bound applied to a concrete finished variant 1
crawl, and the variant 2 bound applied to a concrete finished variant 2
crawl in a world (a transport error on a discovered link) where the
variant 1 crawl deadlocks — the bound for one variant needs nothing from
the other. -/
theorem spec_C7_depth_bound_witness :
    ({ url := "x", text := "x", depth := 0 } : Link).depth ≤ 0 ∧
    ({ url := "y", text := "Y", depth := 1 } : Link).depth ≤ 2 :=
  ⟨(spec_C7_depth_bound ["x"] 0 worldXYZ fifoSchedule 4).1
    { visited := ["x", "y"]
      res := [{ url := "x", text := "x", depth := 0 }]
      n := 0
      pending := []
      trace := [{ url := "x", text := "x", depth := 0 }, { url := "y", text := "Y", depth := 1 }]
      spawned := [{ url := "x", text := "x", depth := 0 }] }
    (by decide) { url := "x", text := "x", depth := 0 } (by decide),
   (spec_C7_depth_bound ["x"] 2 worldXYZ fifoSchedule 6).2
    { visited := ["x", "y", "z"]
      res := [{ url := "x", text := "x", depth := 0 }, { url := "y", text := "Y", depth := 1 },
              { url := "z", text := "Z", depth := 1 }]
      n := 0
      pending := []
      trace := [{ url := "x", text := "x", depth := 0 }, { url := "y", text := "Y", depth := 1 },
                { url := "z", text := "Z", depth := 1 }]
      spawned := [{ url := "x", text := "x", depth := 0 }, { url := "y", text := "Y", depth := 1 },
                  { url := "z", text := "Z", depth := 1 }] }
    (by decide) { url := "y", text := "Y", depth := 1 } (by decide)⟩

theorem dedup_fields_skip (visited : List String) (res trace : List Link) (link : Link)
    (hf : ∀ l ∈ res, firstWithUrl trace l.url = some l)
    (ht : ∀ u, u ∈ visited ↔ ∃ l ∈ trace, l.url = u)
    (hmem : link.url ∈ visited) :
    (∀ l ∈ res, firstWithUrl (trace ++ [link]) l.url = some l) ∧
    (∀ u, u ∈ visited ↔ ∃ l ∈ trace ++ [link], l.url = u) := by
  constructor
  · intro l hl
    exact firstWithUrl_append_some _ _ _ _ (hf l hl)
  · intro u
    constructor
    · intro hu
      rcases (ht u).mp hu with ⟨l, hlt, hlu⟩
      exact ⟨l, List.mem_append.mpr (Or.inl hlt), hlu⟩
    · intro ⟨l, hlt, hlu⟩
      rcases List.mem_append.mp hlt with h' | h'
      · exact (ht u).mpr ⟨l, h', hlu⟩
      · rw [List.mem_singleton.mp h'] at hlu
        rw [← hlu]
        exact hmem

theorem dedup_fields_mark (visited : List String) (res trace : List Link) (link : Link)
    (hf : ∀ l ∈ res, firstWithUrl trace l.url = some l)
    (hv : ∀ l ∈ res, l.url ∈ visited)
    (ht : ∀ u, u ∈ visited ↔ ∃ l ∈ trace, l.url = u) :
    (∀ l ∈ res, firstWithUrl (trace ++ [link]) l.url = some l) ∧
    (∀ l ∈ res, l.url ∈ visited ++ [link.url]) ∧
    (∀ u, u ∈ visited ++ [link.url] ↔ ∃ l ∈ trace ++ [link], l.url = u) := by
  refine ⟨?_, ?_, ?_⟩
  · intro l hl
    exact firstWithUrl_append_some _ _ _ _ (hf l hl)
  · intro l hl
    exact List.mem_append.mpr (Or.inl (hv l hl))
  · intro u
    constructor
    · intro hu
      rcases List.mem_append.mp hu with h' | h'
      · rcases (ht u).mp h' with ⟨l, hlt, hlu⟩
        exact ⟨l, List.mem_append.mpr (Or.inl hlt), hlu⟩
      · have heq := List.mem_singleton.mp h'
        exact ⟨link, List.mem_append.mpr (Or.inr (List.mem_singleton.mpr rfl)), heq.symm⟩
    · intro ⟨l, hlt, hlu⟩
      rcases List.mem_append.mp hlt with h' | h'
      · exact List.mem_append.mpr (Or.inl ((ht u).mpr ⟨l, h', hlu⟩))
      · rw [List.mem_singleton.mp h'] at hlu
        rw [← hlu]
        exact List.mem_append.mpr (Or.inr (List.mem_singleton.mpr rfl))

theorem dedup_fields_accept (visited : List String) (res trace : List Link) (link : Link)
    (hn : (res.map Link.url).Nodup)
    (hf : ∀ l ∈ res, firstWithUrl trace l.url = some l)
    (hv : ∀ l ∈ res, l.url ∈ visited)
    (ht : ∀ u, u ∈ visited ↔ ∃ l ∈ trace, l.url = u)
    (hnmem : link.url ∉ visited) :
    ((res ++ [link]).map Link.url).Nodup ∧
    (∀ l ∈ res ++ [link], firstWithUrl (trace ++ [link]) l.url = some l) ∧
    (∀ l ∈ res ++ [link], l.url ∈ visited ++ [link.url]) ∧
    (∀ u, u ∈ visited ++ [link.url] ↔ ∃ l ∈ trace ++ [link], l.url = u) := by
  have hmark := dedup_fields_mark visited res trace link hf hv ht
  have hfn : firstWithUrl trace link.url = none := by
    apply firstWithUrl_none
    intro l hl hlu
    exact hnmem ((ht link.url).mpr ⟨l, hl, hlu⟩)
  refine ⟨?_, ?_, ?_, hmark.2.2⟩
  · rw [List.map_append, List.map_cons, List.map_nil, List.nodup_append]
    refine ⟨hn, List.nodup_singleton _, ?_⟩
    rw [List.disjoint_singleton]
    intro hm
    rcases List.mem_map.mp hm with ⟨l, hl, hul⟩
    exact hnmem (hul ▸ hv l hl)
  · intro l hl
    rcases List.mem_append.mp hl with h' | h'
    · exact hmark.1 l h'
    · rw [List.mem_singleton.mp h']
      rw [firstWithUrl_append_new _ _ _ hfn]
      simp
  · intro l hl
    rcases List.mem_append.mp hl with h' | h'
    · exact hmark.2.1 l h'
    · rw [List.mem_singleton.mp h']
      exact List.mem_append.mpr (Or.inr (List.mem_singleton.mpr rfl))

theorem V2.processLink_dedup_v2 (w : String → FetchResult) (mD : Nat)
    (s : CrawlState) (link : Link) (h : DedupInv s) :
    DedupInv (V2.processLink w mD s link) := by
  rw [V2.processLink]
  split
  · rename_i hc
    have hmem : link.url ∈ s.visited := List.elem_iff.mp hc
    have hskip := dedup_fields_skip s.visited s.res s.trace link h.firstd h.visTrace hmem
    exact ⟨h.nodup, hskip.1, h.resvis, hskip.2⟩
  · rename_i hc
    have hnmem : link.url ∉ s.visited := fun hm => hc (List.elem_iff.mpr hm)
    have hacc := dedup_fields_accept s.visited s.res s.trace link
      h.nodup h.firstd h.resvis h.visTrace hnmem
    split
    · exact ⟨hacc.1, hacc.2.1, hacc.2.2.1, hacc.2.2.2⟩
    · exact ⟨hacc.1, hacc.2.1, hacc.2.2.1, hacc.2.2.2⟩

theorem V2.processBatch_dedup_v2 (w : String → FetchResult) (mD : Nat) :
    ∀ (batch : List Link) (s : CrawlState),
    DedupInv s → DedupInv (V2.processBatch w mD s batch) := by
  intro batch
  induction batch with
  | nil => intro s h; exact h
  | cons l ls ih =>
    intro s h
    exact ih (V2.processLink w mD s l) (V2.processLink_dedup_v2 w mD s l h)

theorem V2.iterate_dedup_v2 (w : String → FetchResult) (mD : Nat) (sch : Nat → Nat)
    (t : Nat) (s : CrawlState) (h : DedupInv s) : DedupInv (V2.iterate w mD sch t s) := by
  simp only [V2.iterate]
  have hd := V2.processBatch_dedup_v2 w mD (s.pending.getD (sch t % s.pending.length) [])
    { s with pending := s.pending.eraseIdx (sch t % s.pending.length) }
    ⟨h.nodup, h.firstd, h.resvis, h.visTrace⟩
  exact ⟨hd.nodup, hd.firstd, hd.resvis, hd.visTrace⟩

theorem V2.crawlLoop_dedup_v2 (w : String → FetchResult) (mD : Nat) (sch : Nat → Nat) :
    ∀ (fuel t : Nat) (s s' : CrawlState),
    DedupInv s → V2.crawlLoop w mD sch fuel t s = Outcome.finished s' → DedupInv s' := by
  intro fuel
  induction fuel with
  | zero =>
    intro t s s' _ h
    simp only [V2.crawlLoop] at h
    cases h
  | succ fuel ih =>
    intro t s s' hinv h
    simp only [V2.crawlLoop] at h
    split at h
    · cases h
      exact hinv
    · split at h
      · cases h
      · exact ih (t + 1) _ s' (V2.iterate_dedup_v2 w mD sch t s hinv) h

theorem V1.processLink_dedup_v1 (w : String → FetchResult) (mD : Nat)
    (s : CrawlState) (link : Link) (out : CrawlState × Bool) (h : DedupInv s)
    (hp : V1.processLink w mD s link = some out) : DedupInv out.1 := by
  rw [V1.processLink] at hp
  split at hp
  · rename_i hc
    cases hp
    have hmem : link.url ∈ s.visited := List.elem_iff.mp hc
    have hskip := dedup_fields_skip s.visited s.res s.trace link h.firstd h.visTrace hmem
    exact ⟨h.nodup, hskip.1, h.resvis, hskip.2⟩
  · rename_i hc
    have hnmem : link.url ∉ s.visited := fun hm => hc (List.elem_iff.mpr hm)
    split at hp
    · cases hp
      have hmark := dedup_fields_mark s.visited s.res s.trace link h.firstd h.resvis h.visTrace
      exact ⟨h.nodup, hmark.1, hmark.2.1, hmark.2.2⟩
    · split at hp
      · cases hp
      · rename_i batches hws
        cases hp
        have hacc := dedup_fields_accept s.visited s.res s.trace link
          h.nodup h.firstd h.resvis h.visTrace hnmem
        exact ⟨hacc.1, hacc.2.1, hacc.2.2.1, hacc.2.2.2⟩

theorem V1.processBatch_dedup_v1 (w : String → FetchResult) (mD : Nat) :
    ∀ (batch : List Link) (s s1 : CrawlState),
    DedupInv s → V1.processBatch w mD s batch = some s1 → DedupInv s1 := by
  intro batch
  induction batch with
  | nil =>
    intro s s1 h hp
    simp only [V1.processBatch] at hp
    cases hp
    exact h
  | cons l ls ih =>
    intro s s1 h hp
    simp only [V1.processBatch] at hp
    cases hpl : V1.processLink w mD s l with
    | none =>
      rw [hpl] at hp
      cases hp
    | some out =>
      rw [hpl] at hp
      obtain ⟨sX, brk⟩ := out
      cases brk with
      | true =>
        have hp2 : some sX = some s1 := hp
        cases hp2
        exact V1.processLink_dedup_v1 w mD s l (s1, true) h hpl
      | false =>
        exact ih sX s1 (V1.processLink_dedup_v1 w mD s l (sX, false) h hpl) hp

theorem V1.iterate_dedup_v1 (w : String → FetchResult) (mD : Nat) (sch : Nat → Nat)
    (t : Nat) (s s2 : CrawlState) (h : DedupInv s)
    (hp : V1.iterate w mD sch t s = some s2) : DedupInv s2 := by
  simp only [V1.iterate] at hp
  split at hp
  · cases hp
  · rename_i sX hX
    cases hp
    have hd := V1.processBatch_dedup_v1 w mD (s.pending.getD (sch t % s.pending.length) [])
      { s with pending := s.pending.eraseIdx (sch t % s.pending.length) } sX
      ⟨h.nodup, h.firstd, h.resvis, h.visTrace⟩ hX
    exact ⟨hd.nodup, hd.firstd, hd.resvis, hd.visTrace⟩

theorem V1.crawlLoop_dedup_v1 (w : String → FetchResult) (mD : Nat) (sch : Nat → Nat) :
    ∀ (fuel t : Nat) (s s' : CrawlState),
    DedupInv s → V1.crawlLoop w mD sch fuel t s = Outcome.finished s' → DedupInv s' := by
  intro fuel
  induction fuel with
  | zero =>
    intro t s s' _ h
    simp only [V1.crawlLoop] at h
    cases h
  | succ fuel ih =>
    intro t s s' hinv h
    simp only [V1.crawlLoop] at h
    split at h
    · cases h
      exact hinv
    · split at h
      · cases h
      · split at h
        · cases h
        · rename_i s2 hit
          exact ih (t + 1) s2 s' (V1.iterate_dedup_v1 w mD sch t s s2 hinv hit) h

theorem dedup_init (urls : List String) :
    DedupInv { visited := [], res := [], n := urls.length
               pending := [seedLinks urls], trace := [], spawned := [] } := by
  refine ⟨List.nodup_nil, ?_, ?_, ?_⟩
  · intro l hl
    exact absurd hl (List.not_mem_nil l)
  · intro l hl
    exact absurd hl (List.not_mem_nil l)
  · intro u
    simp

/-- C8: for every finished crawl of either variant, no two entries of the
result share a url, and every result entry is exactly the first link
carrying its url in the control loop's processing order (the ghost trace
listing every link the scheduler iterated over, which is the BFS expansion
order of this crawl): the recorded depth is the depth of first discovery.
The two variants are covered by independent conjuncts, so each variant's
property holds whenever THAT variant's crawl finishes, regardless of what
the other variant does in the same world. -/
theorem spec_C8_dedup (urls : List String) (maxDepth : Nat)
    (world : String → FetchResult) (schedule : Nat → Nat) (fuel : Nat) :
    (∀ s1, V1.crawler urls maxDepth world schedule fuel = Outcome.finished s1 →
      (s1.res.map Link.url).Nodup ∧ ∀ l ∈ s1.res, firstWithUrl s1.trace l.url = some l) ∧
    (∀ s2, V2.crawler urls maxDepth world schedule fuel = Outcome.finished s2 →
      (s2.res.map Link.url).Nodup ∧ ∀ l ∈ s2.res, firstWithUrl s2.trace l.url = some l) := by
  constructor
  · intro s1 h1
    have hd := V1.crawlLoop_dedup_v1 world maxDepth schedule fuel 0 _ s1 (dedup_init urls) h1
    exact ⟨hd.nodup, hd.firstd⟩
  · intro s2 h2
    have hd := V2.crawlLoop_dedup_v2 world maxDepth schedule fuel 0 _ s2 (dedup_init urls) h2
    exact ⟨hd.nodup, hd.firstd⟩

/-- C8 witness: the first-discovery property applied to a concrete finished
variant 1 crawl, and to a concrete finished variant 2 crawl in a world (a
transport error on a discovered link) where the variant 1 crawl deadlocks —
each variant's property needs nothing from the other. -/
theorem spec_C8_dedup_witness :
    (firstWithUrl
      [{ url := "x", text := "x", depth := 0 }, { url := "y", text := "Y", depth := 1 }] "x" =
      some { url := "x", text := "x", depth := 0 }) ∧
    (firstWithUrl
      [{ url := "x", text := "x", depth := 0 }, { url := "y", text := "Y", depth := 1 },
       { url := "z", text := "Z", depth := 1 }] "y" =
      some { url := "y", text := "Y", depth := 1 }) :=
  ⟨((spec_C8_dedup ["x"] 0 worldXYZ fifoSchedule 4).1
    { visited := ["x", "y"]
      res := [{ url := "x", text := "x", depth := 0 }]
      n := 0
      pending := []
      trace := [{ url := "x", text := "x", depth := 0 }, { url := "y", text := "Y", depth := 1 }]
      spawned := [{ url := "x", text := "x", depth := 0 }] }
    (by decide)).2 { url := "x", text := "x", depth := 0 } (by decide),
   ((spec_C8_dedup ["x"] 2 worldXYZ fifoSchedule 6).2
    { visited := ["x", "y", "z"]
      res := [{ url := "x", text := "x", depth := 0 }, { url := "y", text := "Y", depth := 1 },
              { url := "z", text := "Z", depth := 1 }]
      n := 0
      pending := []
      trace := [{ url := "x", text := "x", depth := 0 }, { url := "y", text := "Y", depth := 1 },
                { url := "z", text := "Z", depth := 1 }]
      spawned := [{ url := "x", text := "x", depth := 0 }, { url := "y", text := "Y", depth := 1 },
                  { url := "z", text := "Z", depth := 1 }] }
    (by decide)).2 { url := "y", text := "Y", depth := 1 } (by decide)⟩
